import Mathlib

/-!
Verification of the `trso-migrator` repository (`src/main.rs`) against its
natural-language specification.

The development shallowly embeds the two functions the claims are about:

* `parse_dsn` (src/main.rs lines 22-49): a pure string function, embedded
  directly over `List Char` (Rust `splitn(2, c)` becomes `splitFirst`,
  `split(c)` becomes `splitAll`).

* `migrate_database` (src/main.rs lines 132-219): an effectful function over
  a filesystem and a libsql connection.  All external effects are supplied by
  an `Env` record: the directory listing, file contents, and the outcome of
  every database operation (indexed, where relevant, by the count of
  transactions opened so far, so that each issued operation has a
  deterministic outcome).  The run is a fold (`runFiles`) over the sorted
  file list that records
    - the chronological trace of issued operations (`St.events`),
    - the in-memory applied set (`St.applied`, as loaded from the ledger;
      the Rust loop never mutates its `in_database` map, and neither does
      the embedding),
    - the ledger rows added by this run (`St.newRows`: a row becomes durable
      exactly when both its INSERT and the surrounding COMMIT succeed, since
      the INSERT is issued inside the transaction), and
    - the migrations whose SQL became durable (`St.committed`: exactly when
      the COMMIT succeeds, the batch having been executed inside the
      transaction).
  `conn.transaction().await.unwrap()` is a Rust panic on failure, modelled by
  the distinguished outcome `RunOutcome.panicked`, distinct from the returned
  `AppError` variants `errDb`/`errIo`.

Modelling notes, each matching the source:
  - `read_dir` yields entries of a single directory, so every full path is
    `dir ++ "/" ++ name` with a common `dir`; comparing `PathBuf`s that share
    their parent equals comparing the full path strings byte-lexicographically,
    so `list_files.sort()` is embedded as `List.insertionSort` by `pathLe dir`
    (a stable sort; listings have no duplicate paths, so any stable
    `≤`-sort produces the same list).
  - `file.file_name()` is `Some` for every entry produced by `read_dir` of a
    directory, so the `None` branch (print and continue) is not modelled and
    entries are identified by their base name.
  - `println!` logging carries no state and is not modelled.
  - The results of the ledger INSERT, the COMMIT and the ROLLBACK are
    discarded by the source (`let _ = ...`); the embedding issues the
    operations (recording them in the trace and in the resulting ledger
    state) and likewise discards their outcomes in the control flow.
  - Error strings in `parse_dsn` are kept close to the source texts.
-/

namespace Trso

/-! ## Embedding of `parse_dsn` (src/main.rs lines 22-49) -/

/-- Rust `s.splitn(2, c)`: the part before the first occurrence of `c`, and
`some` remainder when `c` occurs (`none` otherwise). -/
def splitFirst : List Char → Char → List Char × Option (List Char)
  | [], _ => ([], none)
  | x :: xs, c =>
    if x = c then ([], some xs)
    else
      let p := splitFirst xs c
      (x :: p.1, p.2)

/-- Rust `s.split(c)`: all parts; splitting the empty string yields `[[]]`. -/
def splitAll : List Char → Char → List (List Char)
  | [], _ => [[]]
  | x :: xs, c =>
    if x = c then [] :: splitAll xs c
    else
      match splitAll xs c with
      | [] => [[x]]
      | h :: t => (x :: h) :: t

/-- The loop of `parse_dsn` over `query.split('&')`: for each pair,
`splitn(2, '=')` gives the key and the (possibly empty) value; the first pair
whose key is `authToken` decides the result. -/
def findAuthToken (base : List Char) : List (List Char) → Except String (String × String)
  | [] => .error "TRSO_DSN must include authToken query parameter"
  | p :: ps =>
    let kv := splitFirst p '='
    let value := kv.2.getD []
    if kv.1 = String.toList "authToken" then
      if value = [] then .error "authToken in TRSO_DSN cannot be empty"
      else .ok (String.mk base, String.mk value)
    else findAuthToken base ps

/-- `parse_dsn` (src/main.rs lines 22-49). -/
def parse_dsn (dsn : String) : Except String (String × String) :=
  let bp := splitFirst dsn.toList '?'
  if bp.1 = [] then
    .error "TRSO_DSN must include the database URL before the query separator"
  else
    match bp.2 with
    | none => .error "TRSO_DSN must include query parameters"
    | some query => findAuthToken bp.1 (splitAll query '&')

/-- The value of the first `authToken` pair of a query, when present
(the empty value when the pair has no `=` or nothing after it). -/
def firstAuthToken : List (List Char) → Option (List Char)
  | [] => none
  | p :: ps =>
    let kv := splitFirst p '='
    if kv.1 = String.toList "authToken" then some (kv.2.getD []) else firstAuthToken ps

/-- Acceptance condition in the words of the claim: the DSN has a non-empty
prefix before the first question mark, and its query string contains an
`authToken` key with a non-empty value. -/
def dsnSpecAccepts (dsn : String) : Bool :=
  let bp := splitFirst dsn.toList '?'
  match bp.2 with
  | none => false
  | some query =>
    !bp.1.isEmpty &&
      (splitAll query '&').any fun p =>
        let kv := splitFirst p '='
        kv.1 = String.toList "authToken" && !(kv.2.getD []).isEmpty

/-- Success condition actually implemented: the prefix before the first
question mark is non-empty, a query string is present, and the *first*
`authToken` pair of the query has a non-empty value, which becomes the
token. -/
def dsnOkSpec (dsn b t : String) : Prop :=
  (splitFirst dsn.toList '?').1 ≠ [] ∧
    ∃ q v, (splitFirst dsn.toList '?').2 = some q ∧
      firstAuthToken (splitAll q '&') = some v ∧ v ≠ [] ∧
      b = String.mk (splitFirst dsn.toList '?').1 ∧ t = String.mk v

example : parse_dsn "libsql://example.turso.io?authToken=abc123&project=myproj"
    = .ok ("libsql://example.turso.io", "abc123") := by rfl

example : parse_dsn "libsql://example.turso.io"
    = .error "TRSO_DSN must include query parameters" := by rfl

example : (parse_dsn "libsql://e.io?project=myproj").isOk = false := by decide

/-! ## Embedding of `migrate_database` (src/main.rs lines 132-219) -/

/-- Outcome of one database operation. -/
inductive DbResult where
  | ok : DbResult
  | err : String → DbResult
deriving Repr, DecidableEq

/-- One issued external operation, in chronological order.  `i` is the index
of the transaction (the count of transactions opened before it). -/
inductive Event where
  | dbCreateTable : Event
  | dbQueryLedger : Event
  | fsReadFile (name : String) : Event
  | dbBegin (i : Nat) : Event
  | dbExecBatch (i : Nat) (name content : String) : Event
  | dbInsert (i : Nat) (name : String) : Event
  | dbCommit (i : Nat) : Event
  | dbRollback (i : Nat) : Event
deriving Repr, DecidableEq

/-- How the Rust function ends: `Ok(())`, `Err(AppError::DatabaseError _)`,
`Err(AppError::IOError _)`, or a panic (an `unwrap()` on an `Err`). -/
inductive RunOutcome where
  | ok : RunOutcome
  | errDb (msg : String) : RunOutcome
  | errIo (msg : String) : RunOutcome
  | panicked (msg : String) : RunOutcome
deriving Repr, DecidableEq

/-- The external world of one run: the filesystem and the outcome the libsql
connection gives each operation.  Per-transaction operations are indexed by
the transaction count so each issued call has a deterministic outcome.
`rollbackTx` is never consulted by the run: the source discards the rollback
result (`let _ = transaction.rollback().await`). -/
structure Env where
  dir : String
  listDir : Except String (List String)
  readFile : String → Except String String
  createTable : DbResult
  queryLedger : Except String (List String)
  txBegin : Nat → DbResult
  execBatch : Nat → String → DbResult
  insertLedger : Nat → DbResult
  commitTx : Nat → DbResult
  rollbackTx : Nat → DbResult

/-- Full path of a directory entry, as `DirEntry::path()` produces it. -/
def fullPath (dir name : String) : String :=
  dir ++ "/" ++ name

/-- Executable lexicographic comparison of character lists, used to decide
the path order (the library order on `String` does not reduce in the
kernel). -/
def strLe : List Char → List Char → Bool
  | [], _ => true
  | _ :: _, [] => false
  | a :: as, b :: bs =>
    if a = b then strLe as bs else decide (a < b)

/-- Comparison used by `list_files.sort()`: for entries of one directory,
`PathBuf` order is the lexicographic order of the full path strings. -/
def pathLe (dir : String) (a b : String) : Prop :=
  fullPath dir a ≤ fullPath dir b

theorem lex_cons_iff {a b : Char} {as bs : List Char} :
    List.Lex (· < ·) (b :: bs) (a :: as) ↔ b < a ∨ (b = a ∧ List.Lex (· < ·) bs as) := by
  constructor
  · intro h
    cases h with
    | rel h => exact Or.inl h
    | cons h => exact Or.inr ⟨rfl, h⟩
  · rintro (h | ⟨rfl, h⟩)
    · exact List.Lex.rel h
    · exact List.Lex.cons h

/-- `strLe` agrees with the library lexicographic order on `List Char`. -/
theorem strLe_iff_le : ∀ xs ys : List Char, strLe xs ys = true ↔ xs ≤ ys := by
  intro xs
  induction xs with
  | nil => intro ys; simp [strLe]
  | cons a as ih =>
    intro ys
    cases ys with
    | nil =>
      simp only [strLe, Bool.false_eq_true, false_iff]
      exact fun h => absurd (List.nil_lt_cons a as) (not_lt.mpr h)
    | cons b bs =>
      have hlt : ((a :: as : List Char) ≤ b :: bs) ↔
          ¬ List.Lex (· < ·) (b :: bs) (a :: as) := Iff.rfl.trans not_lt.symm
      rw [hlt, lex_cons_iff, strLe]
      by_cases hab : a = b
      · subst hab
        rw [if_pos rfl, ih bs]
        constructor
        · rintro h (h1 | ⟨-, h2⟩)
          · exact lt_irrefl a h1
          · exact not_lt.mpr h h2
        · intro h
          exact le_of_not_lt fun h2 => h (Or.inr ⟨rfl, h2⟩)
      · simp only [if_neg hab, decide_eq_true_eq]
        constructor
        · intro h
          rintro (hba | ⟨rfl, _⟩)
          · exact absurd h (not_lt.mpr hba.le)
          · exact hab rfl
        · intro h
          rcases lt_trichotomy a b with h1 | h1 | h1
          · exact h1
          · exact absurd h1 hab
          · exact absurd (Or.inl h1) h

/-- `strLe` on the characters decides the `String` order. -/
theorem strLe_iff_pathLe (dir a b : String) :
    strLe (fullPath dir a).toList (fullPath dir b).toList = true ↔ pathLe dir a b := by
  rw [strLe_iff_le]
  exact String.le_iff_toList_le.symm

instance (dir : String) : DecidableRel (pathLe dir) := fun a b =>
  decidable_of_iff _ (strLe_iff_pathLe dir a b)

theorem fullPath_inj {dir a b : String} (h : fullPath dir a = fullPath dir b) : a = b := by
  have h2 : (dir ++ "/").data ++ a.data = (dir ++ "/").data ++ b.data := by
    have h3 := congrArg String.data h
    simpa [fullPath, String.data_append] using h3
  exact String.toList_inj.mp (List.append_cancel_left h2)

instance (dir : String) : IsTotal String (pathLe dir) :=
  ⟨fun a b => le_total (fullPath dir a) (fullPath dir b)⟩

instance (dir : String) : IsTrans String (pathLe dir) :=
  ⟨fun _ _ _ hab hbc => le_trans hab hbc⟩

instance (dir : String) : IsAntisymm String (pathLe dir) :=
  ⟨fun _ _ hab hba => fullPath_inj (le_antisymm hab hba)⟩

/-- Running state of one call to `migrate_database`. -/
structure St where
  /-- Chronological trace of issued operations. -/
  events : List Event
  /-- The in-memory applied set (`in_database`), as loaded from the ledger. -/
  applied : List String
  /-- Ledger rows durably added by this run, in order: a row is durable
  exactly when its INSERT and the surrounding COMMIT both succeed. -/
  newRows : List String
  /-- Migrations whose SQL became durable in this run, in order: exactly when
  the surrounding COMMIT succeeds. -/
  committed : List String
  /-- Count of transactions opened so far. -/
  tx : Nat
deriving Repr, DecidableEq

/-- Record one issued operation. -/
def St.addEvent (st : St) (e : Event) : St :=
  { st with events := st.events ++ [e] }

/-- State after the success branch of one loop iteration (src/main.rs lines
200-209): the batch executed, so the INSERT and the COMMIT are issued (their
results are discarded by the source).  The ledger row is durable exactly when
both the INSERT and the COMMIT succeed; the migration SQL is durable exactly
when the COMMIT succeeds. -/
def commitSt (env : Env) (st : St) (name content : String) : St :=
  let st3 := ((((st.addEvent (.fsReadFile name)).addEvent (.dbBegin st.tx)).addEvent
    (.dbExecBatch st.tx name content)).addEvent (.dbInsert st.tx name)).addEvent
    (.dbCommit st.tx)
  { st3 with
    newRows :=
      if env.insertLedger st.tx = .ok ∧ env.commitTx st.tx = .ok
      then st3.newRows ++ [name] else st3.newRows
    committed :=
      if env.commitTx st.tx = .ok
      then st3.committed ++ [name] else st3.committed
    tx := st3.tx + 1 }

/-- The `for file in list_files` loop (src/main.rs lines 179-216) over the
files still to consider. -/
def runFiles (env : Env) : List String → St → RunOutcome × St
  | [], st => (RunOutcome.ok, st)
  | name :: rest, st =>
    if name ∈ st.applied then
      runFiles env rest st
    else
      match env.readFile name with
      | .error e => (RunOutcome.errIo e, st.addEvent (.fsReadFile name))
      | .ok content =>
        let st1 := (st.addEvent (.fsReadFile name)).addEvent (.dbBegin st.tx)
        match env.txBegin st.tx with
        | .err m => (RunOutcome.panicked m, st1)
        | .ok =>
          let st2 := st1.addEvent (.dbExecBatch st.tx name content)
          match env.execBatch st.tx content with
          | .err e => (RunOutcome.errDb e, st2.addEvent (.dbRollback st.tx))
          | .ok => runFiles env rest (commitSt env st name content)

/-- State before any operation is issued. -/
def initSt : St :=
  { events := [], applied := [], newRows := [], committed := [], tx := 0 }

/-- `migrate_database` (src/main.rs lines 132-219): list the directory, sort
the paths, create the `migrations` table if absent, load the applied set,
then run the per-file loop. -/
def migrate_database (env : Env) : RunOutcome × St :=
  match env.listDir with
  | .error e => (RunOutcome.errIo e, initSt)
  | .ok names =>
    let sorted := List.insertionSort (pathLe env.dir) names
    let st0 := initSt.addEvent .dbCreateTable
    match env.createTable with
    | .err e => (RunOutcome.errDb e, st0)
    | .ok =>
      let st1 := st0.addEvent .dbQueryLedger
      match env.queryLedger with
      | .error e => (RunOutcome.errDb e, st1)
      | .ok applied => runFiles env sorted { st1 with applied := applied }

/-- The file name a trace entry is about, when it is a per-file operation:
reading the file, executing its batch, or inserting its ledger row. -/
def eventFileName : Event → Option String
  | .fsReadFile n => some n
  | .dbExecBatch _ n _ => some n
  | .dbInsert _ n => some n
  | _ => none

/-- The migration names whose SQL batches were executed, in trace order. -/
def execsOf (events : List Event) : List String :=
  events.filterMap fun e =>
    match e with
    | .dbExecBatch _ n _ => some n
    | _ => none

@[simp] theorem addEvent_events (st : St) (e : Event) :
    (st.addEvent e).events = st.events ++ [e] := rfl

@[simp] theorem addEvent_applied (st : St) (e : Event) :
    (st.addEvent e).applied = st.applied := rfl

@[simp] theorem addEvent_newRows (st : St) (e : Event) :
    (st.addEvent e).newRows = st.newRows := rfl

@[simp] theorem addEvent_committed (st : St) (e : Event) :
    (st.addEvent e).committed = st.committed := rfl

@[simp] theorem addEvent_tx (st : St) (e : Event) :
    (st.addEvent e).tx = st.tx := rfl

@[simp] theorem commitSt_events (env : Env) (st : St) (name content : String) :
    (commitSt env st name content).events = st.events ++
      [Event.fsReadFile name, Event.dbBegin st.tx, Event.dbExecBatch st.tx name content,
       Event.dbInsert st.tx name, Event.dbCommit st.tx] := by
  simp [commitSt, St.addEvent]

@[simp] theorem commitSt_applied (env : Env) (st : St) (name content : String) :
    (commitSt env st name content).applied = st.applied := rfl

@[simp] theorem commitSt_tx (env : Env) (st : St) (name content : String) :
    (commitSt env st name content).tx = st.tx + 1 := rfl

theorem commitSt_newRows (env : Env) (st : St) (name content : String) :
    (commitSt env st name content).newRows =
      if env.insertLedger st.tx = .ok ∧ env.commitTx st.tx = .ok
      then st.newRows ++ [name] else st.newRows := rfl

theorem commitSt_committed (env : Env) (st : St) (name content : String) :
    (commitSt env st name content).committed =
      if env.commitTx st.tx = .ok
      then st.committed ++ [name] else st.committed := rfl

@[simp] theorem execsOf_nil : execsOf [] = [] := rfl

@[simp] theorem execsOf_append (l₁ l₂ : List Event) :
    execsOf (l₁ ++ l₂) = execsOf l₁ ++ execsOf l₂ :=
  List.filterMap_append l₁ l₂ _

/-- The loop never changes the in-memory applied set: the source never
inserts into `in_database` after loading it. -/
theorem runFiles_applied (env : Env) :
    ∀ (l : List String) (st : St), (runFiles env l st).2.applied = st.applied := by
  intro l
  induction l with
  | nil => intro st; rfl
  | cons name rest ih =>
    intro st
    by_cases hm : name ∈ st.applied
    · simp [runFiles, hm, ih]
    · cases hrf : env.readFile name with
      | error e => simp [runFiles, hm, hrf]
      | ok content =>
        cases htx : env.txBegin st.tx with
        | err m => simp [runFiles, hm, hrf, htx]
        | ok =>
          cases hex : env.execBatch st.tx content with
          | err e => simp [runFiles, hm, hrf, htx, hex]
          | ok => simp [runFiles, hm, hrf, htx, hex, ih]

/-- Trace structure of the loop: events are only appended, every per-file
event concerns a pending file from the remaining list, and the executed
batches form a sublist of the remaining list (so execution respects the
list order). -/
theorem runFiles_events (env : Env) :
    ∀ (l : List String) (st : St), ∃ E,
      (runFiles env l st).2.events = st.events ++ E ∧
      (∀ e ∈ E, ∀ n, eventFileName e = some n → n ∉ st.applied ∧ n ∈ l) ∧
      List.Sublist (execsOf E) l := by
  intro l
  induction l with
  | nil =>
    intro st
    exact ⟨[], by simp [runFiles], by simp, List.nil_sublist []⟩
  | cons name rest ih =>
    intro st
    by_cases hm : name ∈ st.applied
    · obtain ⟨E, hE, hP, hS⟩ := ih st
      refine ⟨E, by simp [runFiles, hm, hE], ?_, hS.trans (List.sublist_cons_self name rest)⟩
      intro e he n hn
      obtain ⟨h1, h2⟩ := hP e he n hn
      exact ⟨h1, List.mem_cons_of_mem _ h2⟩
    · cases hrf : env.readFile name with
      | error e =>
        refine ⟨[Event.fsReadFile name], by simp [runFiles, hm, hrf], ?_, by simp [execsOf]⟩
        intro ev hev n hn
        simp only [List.mem_singleton] at hev
        subst hev
        simp only [eventFileName, Option.some.injEq] at hn
        exact hn ▸ ⟨hm, List.mem_cons_self _ _⟩
      | ok content =>
        cases htx : env.txBegin st.tx with
        | err m =>
          refine ⟨[Event.fsReadFile name, Event.dbBegin st.tx],
            by simp [runFiles, hm, hrf, htx], ?_, by simp [execsOf]⟩
          intro ev hev n hn
          simp only [List.mem_cons, List.not_mem_nil, or_false] at hev
          rcases hev with rfl | rfl
          · simp only [eventFileName, Option.some.injEq] at hn
            exact hn ▸ ⟨hm, List.mem_cons_self _ _⟩
          · simp [eventFileName] at hn
        | ok =>
          cases hex : env.execBatch st.tx content with
          | err e =>
            refine ⟨[Event.fsReadFile name, Event.dbBegin st.tx,
              Event.dbExecBatch st.tx name content, Event.dbRollback st.tx],
              by simp [runFiles, hm, hrf, htx, hex], ?_, ?_⟩
            · intro ev hev n hn
              simp only [List.mem_cons, List.not_mem_nil, or_false] at hev
              rcases hev with rfl | rfl | rfl | rfl
              · simp only [eventFileName, Option.some.injEq] at hn
                exact hn ▸ ⟨hm, List.mem_cons_self _ _⟩
              · simp [eventFileName] at hn
              · simp only [eventFileName, Option.some.injEq] at hn
                exact hn ▸ ⟨hm, List.mem_cons_self _ _⟩
              · simp [eventFileName] at hn
            · simp [execsOf, List.cons_sublist_cons, List.nil_sublist]
          | ok =>
            obtain ⟨E, hE, hP, hS⟩ := ih (commitSt env st name content)
            have hrun : runFiles env (name :: rest) st =
                runFiles env rest (commitSt env st name content) := by
              simp [runFiles, hm, hrf, htx, hex]
            refine ⟨[Event.fsReadFile name, Event.dbBegin st.tx,
              Event.dbExecBatch st.tx name content, Event.dbInsert st.tx name,
              Event.dbCommit st.tx] ++ E, ?_, ?_, ?_⟩
            · rw [hrun, hE, commitSt_events]
              simp
            · intro ev hev n hn
              rcases List.mem_append.mp hev with hev | hev
              · simp only [List.mem_cons, List.not_mem_nil, or_false] at hev
                rcases hev with rfl | rfl | rfl | rfl | rfl
                · simp only [eventFileName, Option.some.injEq] at hn
                  exact hn ▸ ⟨hm, List.mem_cons_self _ _⟩
                · simp [eventFileName] at hn
                · simp only [eventFileName, Option.some.injEq] at hn
                  exact hn ▸ ⟨hm, List.mem_cons_self _ _⟩
                · simp only [eventFileName, Option.some.injEq] at hn
                  exact hn ▸ ⟨hm, List.mem_cons_self _ _⟩
                · simp [eventFileName] at hn
              · obtain ⟨h1, h2⟩ := hP ev hev n hn
                exact ⟨by simpa using h1, List.mem_cons_of_mem _ h2⟩
            · have hx : execsOf ([Event.fsReadFile name, Event.dbBegin st.tx,
                  Event.dbExecBatch st.tx name content, Event.dbInsert st.tx name,
                  Event.dbCommit st.tx] ++ E) = name :: execsOf E := by
                simp [execsOf]
              rw [hx]
              exact List.cons_sublist_cons.mpr hS

/-- Ledger rows are only appended by the loop, and only for files of the
remaining list. -/
theorem runFiles_newRows (env : Env) :
    ∀ (l : List String) (st : St), ∃ rows,
      (runFiles env l st).2.newRows = st.newRows ++ rows ∧ ∀ n ∈ rows, n ∈ l := by
  intro l
  induction l with
  | nil => intro st; exact ⟨[], by simp [runFiles], by simp⟩
  | cons name rest ih =>
    intro st
    by_cases hm : name ∈ st.applied
    · obtain ⟨rows, h1, h2⟩ := ih st
      exact ⟨rows, by simp [runFiles, hm, h1],
        fun n hn => List.mem_cons_of_mem _ (h2 n hn)⟩
    · cases hrf : env.readFile name with
      | error e => exact ⟨[], by simp [runFiles, hm, hrf], by simp⟩
      | ok content =>
        cases htx : env.txBegin st.tx with
        | err m => exact ⟨[], by simp [runFiles, hm, hrf, htx], by simp⟩
        | ok =>
          cases hex : env.execBatch st.tx content with
          | err e => exact ⟨[], by simp [runFiles, hm, hrf, htx, hex], by simp⟩
          | ok =>
            obtain ⟨rows, h1, h2⟩ := ih (commitSt env st name content)
            have hrun : runFiles env (name :: rest) st =
                runFiles env rest (commitSt env st name content) := by
              simp [runFiles, hm, hrf, htx, hex]
            by_cases hins : env.insertLedger st.tx = DbResult.ok ∧
                env.commitTx st.tx = DbResult.ok
            · refine ⟨name :: rows, ?_, ?_⟩
              · rw [hrun, h1, commitSt_newRows, if_pos hins]
                simp
              · intro n hn
                rcases List.mem_cons.mp hn with rfl | hn
                · exact List.mem_cons_self _ _
                · exact List.mem_cons_of_mem _ (h2 n hn)
            · refine ⟨rows, ?_, fun n hn => List.mem_cons_of_mem _ (h2 n hn)⟩
              rw [hrun, h1, commitSt_newRows, if_neg hins]

/-- When the run returns `Ok` and every issued INSERT and COMMIT succeeded,
every file of the list is either in the applied set or in the rows added to
the ledger. -/
theorem runFiles_ok_covered (env : Env)
    (hins : ∀ i, env.insertLedger i = DbResult.ok)
    (hcom : ∀ i, env.commitTx i = DbResult.ok) :
    ∀ (l : List String) (st : St), (runFiles env l st).1 = RunOutcome.ok →
      ∀ n ∈ l, n ∈ st.applied ∨ n ∈ (runFiles env l st).2.newRows := by
  intro l
  induction l with
  | nil => intro st _ n hn; cases hn
  | cons name rest ih =>
    intro st hok n hn
    by_cases hm : name ∈ st.applied
    · have hrun : runFiles env (name :: rest) st = runFiles env rest st := by
        simp [runFiles, hm]
      rw [hrun] at hok ⊢
      rcases List.mem_cons.mp hn with rfl | hn
      · exact Or.inl hm
      · exact ih st hok n hn
    · cases hrf : env.readFile name with
      | error e => simp [runFiles, hm, hrf] at hok
      | ok content =>
        cases htx : env.txBegin st.tx with
        | err m => simp [runFiles, hm, hrf, htx] at hok
        | ok =>
          cases hex : env.execBatch st.tx content with
          | err e => simp [runFiles, hm, hrf, htx, hex] at hok
          | ok =>
            have hrun : runFiles env (name :: rest) st =
                runFiles env rest (commitSt env st name content) := by
              simp [runFiles, hm, hrf, htx, hex]
            rw [hrun] at hok ⊢
            rcases List.mem_cons.mp hn with rfl | hn
            · right
              obtain ⟨rows, h1, _⟩ := runFiles_newRows env rest (commitSt env st n content)
              rw [h1, commitSt_newRows, if_pos ⟨hins st.tx, hcom st.tx⟩]
              simp
            · rcases ih (commitSt env st name content) hok n hn with h | h
              · exact Or.inl (by simpa using h)
              · exact Or.inr h

/-- When every file of the list is already applied, the loop issues nothing
and succeeds with the state unchanged. -/
theorem runFiles_all_applied (env : Env) :
    ∀ (l : List String) (st : St), (∀ n ∈ l, n ∈ st.applied) →
      runFiles env l st = (RunOutcome.ok, st) := by
  intro l
  induction l with
  | nil => intro st _; rfl
  | cons name rest ih =>
    intro st h
    have hm : name ∈ st.applied := h name (List.mem_cons_self _ _)
    have hrun : runFiles env (name :: rest) st = runFiles env rest st := by
      simp [runFiles, hm]
    rw [hrun]
    exact ih st fun n hn => h n (List.mem_cons_of_mem _ hn)

/-- `env` with the outcomes of the ledger INSERTs and the COMMITs replaced. -/
def withLedgerOutcomes (env : Env) (f g : Nat → DbResult) : Env :=
  { env with insertLedger := f, commitTx := g }

@[simp] theorem withLedgerOutcomes_readFile (env : Env) (f g : Nat → DbResult) :
    (withLedgerOutcomes env f g).readFile = env.readFile := rfl

@[simp] theorem withLedgerOutcomes_txBegin (env : Env) (f g : Nat → DbResult) :
    (withLedgerOutcomes env f g).txBegin = env.txBegin := rfl

@[simp] theorem withLedgerOutcomes_execBatch (env : Env) (f g : Nat → DbResult) :
    (withLedgerOutcomes env f g).execBatch = env.execBatch := rfl

@[simp] theorem withLedgerOutcomes_listDir (env : Env) (f g : Nat → DbResult) :
    (withLedgerOutcomes env f g).listDir = env.listDir := rfl

@[simp] theorem withLedgerOutcomes_createTable (env : Env) (f g : Nat → DbResult) :
    (withLedgerOutcomes env f g).createTable = env.createTable := rfl

@[simp] theorem withLedgerOutcomes_queryLedger (env : Env) (f g : Nat → DbResult) :
    (withLedgerOutcomes env f g).queryLedger = env.queryLedger := rfl

@[simp] theorem withLedgerOutcomes_dir (env : Env) (f g : Nat → DbResult) :
    (withLedgerOutcomes env f g).dir = env.dir := rfl

/-- The outcome and the trace of the loop do not depend on the results of
the ledger INSERTs and the COMMITs: the source discards both
(`let _ = transaction.execute(...)`, `let _ = transaction.commit()`). -/
theorem runFiles_outcome_indep (env : Env) (f g : Nat → DbResult) :
    ∀ (l : List String) (st st' : St),
      st'.events = st.events → st'.applied = st.applied → st'.tx = st.tx →
      (runFiles (withLedgerOutcomes env f g) l st').1 = (runFiles env l st).1 ∧
        (runFiles (withLedgerOutcomes env f g) l st').2.events =
          (runFiles env l st).2.events := by
  intro l
  induction l with
  | nil => intro st st' he _ _; exact ⟨rfl, he⟩
  | cons name rest ih =>
    intro st st' he ha ht
    by_cases hm : name ∈ st.applied
    · have hm' : name ∈ st'.applied := ha ▸ hm
      have h1 : runFiles env (name :: rest) st = runFiles env rest st := by
        simp [runFiles, hm]
      have h2 : runFiles (withLedgerOutcomes env f g) (name :: rest) st' =
          runFiles (withLedgerOutcomes env f g) rest st' := by
        simp [runFiles, hm']
      rw [h1, h2]
      exact ih st st' he ha ht
    · have hm' : name ∉ st'.applied := ha ▸ hm
      cases hrf : env.readFile name with
      | error e =>
        have h1 : runFiles env (name :: rest) st =
            (RunOutcome.errIo e, st.addEvent (.fsReadFile name)) := by
          simp [runFiles, hm, hrf]
        have h2 : runFiles (withLedgerOutcomes env f g) (name :: rest) st' =
            (RunOutcome.errIo e, st'.addEvent (.fsReadFile name)) := by
          simp [runFiles, hm', hrf]
        rw [h1, h2]
        exact ⟨rfl, by simp [he]⟩
      | ok content =>
        cases htx : env.txBegin st.tx with
        | err m =>
          have h1 : runFiles env (name :: rest) st = (RunOutcome.panicked m,
              (st.addEvent (.fsReadFile name)).addEvent (.dbBegin st.tx)) := by
            simp [runFiles, hm, hrf, htx]
          have h2 : runFiles (withLedgerOutcomes env f g) (name :: rest) st' =
              (RunOutcome.panicked m,
                (st'.addEvent (.fsReadFile name)).addEvent (.dbBegin st'.tx)) := by
            simp [runFiles, hm', hrf, ht, htx]
          rw [h1, h2]
          exact ⟨rfl, by simp [he, ht]⟩
        | ok =>
          cases hex : env.execBatch st.tx content with
          | err e =>
            have h1 : runFiles env (name :: rest) st = (RunOutcome.errDb e,
                (((st.addEvent (.fsReadFile name)).addEvent (.dbBegin st.tx)).addEvent
                  (.dbExecBatch st.tx name content)).addEvent (.dbRollback st.tx)) := by
              simp [runFiles, hm, hrf, htx, hex]
            have h2 : runFiles (withLedgerOutcomes env f g) (name :: rest) st' =
                (RunOutcome.errDb e,
                  (((st'.addEvent (.fsReadFile name)).addEvent (.dbBegin st'.tx)).addEvent
                    (.dbExecBatch st'.tx name content)).addEvent (.dbRollback st'.tx)) := by
              simp [runFiles, hm', hrf, ht, htx, hex]
            rw [h1, h2]
            exact ⟨rfl, by simp [he, ht]⟩
          | ok =>
            have h1 : runFiles env (name :: rest) st =
                runFiles env rest (commitSt env st name content) := by
              simp [runFiles, hm, hrf, htx, hex]
            have h2 : runFiles (withLedgerOutcomes env f g) (name :: rest) st' =
                runFiles (withLedgerOutcomes env f g) rest
                  (commitSt (withLedgerOutcomes env f g) st' name content) := by
              simp [runFiles, hm', hrf, ht, htx, hex]
            rw [h1, h2]
            exact ih (commitSt env st name content)
              (commitSt (withLedgerOutcomes env f g) st' name content)
              (by simp [he, ht]) (by simp [ha]) (by simp [ht])

/-- An `IOError` produced by the loop is exactly the message of a failed
file read. -/
theorem runFiles_errIo (env : Env) :
    ∀ (l : List String) (st : St) (m : String),
      (runFiles env l st).1 = RunOutcome.errIo m →
      ∃ n, env.readFile n = Except.error m := by
  intro l
  induction l with
  | nil => intro st m h; cases h
  | cons name rest ih =>
    intro st m h
    by_cases hm : name ∈ st.applied
    · rw [show runFiles env (name :: rest) st = runFiles env rest st from by
        simp [runFiles, hm]] at h
      exact ih st m h
    · cases hrf : env.readFile name with
      | error e =>
        have he : e = m := by
          rw [show runFiles env (name :: rest) st =
            (RunOutcome.errIo e, st.addEvent (.fsReadFile name)) from by
              simp [runFiles, hm, hrf]] at h
          exact (RunOutcome.errIo.injEq e m).mp h
        exact ⟨name, he ▸ hrf⟩
      | ok content =>
        cases htx : env.txBegin st.tx with
        | err mm => simp [runFiles, hm, hrf, htx] at h
        | ok =>
          cases hex : env.execBatch st.tx content with
          | err e => simp [runFiles, hm, hrf, htx, hex] at h
          | ok =>
            rw [show runFiles env (name :: rest) st =
              runFiles env rest (commitSt env st name content) from by
                simp [runFiles, hm, hrf, htx, hex]] at h
            exact ih (commitSt env st name content) m h

/-- A `DatabaseError` produced by the loop is exactly the message of a
failed batch execution. -/
theorem runFiles_errDb (env : Env) :
    ∀ (l : List String) (st : St) (m : String),
      (runFiles env l st).1 = RunOutcome.errDb m →
      ∃ i c, env.execBatch i c = DbResult.err m := by
  intro l
  induction l with
  | nil => intro st m h; cases h
  | cons name rest ih =>
    intro st m h
    by_cases hm : name ∈ st.applied
    · rw [show runFiles env (name :: rest) st = runFiles env rest st from by
        simp [runFiles, hm]] at h
      exact ih st m h
    · cases hrf : env.readFile name with
      | error e => simp [runFiles, hm, hrf] at h
      | ok content =>
        cases htx : env.txBegin st.tx with
        | err mm => simp [runFiles, hm, hrf, htx] at h
        | ok =>
          cases hex : env.execBatch st.tx content with
          | err e =>
            have he : e = m := by
              rw [show (runFiles env (name :: rest) st).1 = RunOutcome.errDb e from by
                simp [runFiles, hm, hrf, htx, hex]] at h
              exact (RunOutcome.errDb.injEq e m).mp h
            exact ⟨st.tx, content, he ▸ hex⟩
          | ok =>
            rw [show runFiles env (name :: rest) st =
              runFiles env rest (commitSt env st name content) from by
                simp [runFiles, hm, hrf, htx, hex]] at h
            exact ih (commitSt env st name content) m h

/-- The loop reads none of `listDir`, `createTable`, `queryLedger` and `dir`:
two environments agreeing on the remaining fields run identically. -/
theorem runFiles_env_indep (env env' : Env)
    (h1 : env'.readFile = env.readFile) (h2 : env'.txBegin = env.txBegin)
    (h3 : env'.execBatch = env.execBatch) (h4 : env'.insertLedger = env.insertLedger)
    (h5 : env'.commitTx = env.commitTx) :
    ∀ (l : List String) (st : St), runFiles env' l st = runFiles env l st := by
  intro l
  induction l with
  | nil => intro st; rfl
  | cons name rest ih =>
    intro st
    by_cases hm : name ∈ st.applied
    · simp [runFiles, hm, ih]
    · cases hrf : env.readFile name with
      | error e =>
        have hrf' : env'.readFile name = Except.error e := by rw [h1, hrf]
        have ha : runFiles env (name :: rest) st =
            (RunOutcome.errIo e, st.addEvent (.fsReadFile name)) := by
          simp [runFiles, hm, hrf]
        have hb : runFiles env' (name :: rest) st =
            (RunOutcome.errIo e, st.addEvent (.fsReadFile name)) := by
          simp [runFiles, hm, hrf']
        rw [ha, hb]
      | ok content =>
        have hrf' : env'.readFile name = Except.ok content := by rw [h1, hrf]
        cases htx : env.txBegin st.tx with
        | err m =>
          have htx' : env'.txBegin st.tx = DbResult.err m := by rw [h2, htx]
          have ha : runFiles env (name :: rest) st = (RunOutcome.panicked m,
              (st.addEvent (.fsReadFile name)).addEvent (.dbBegin st.tx)) := by
            simp [runFiles, hm, hrf, htx]
          have hb : runFiles env' (name :: rest) st = (RunOutcome.panicked m,
              (st.addEvent (.fsReadFile name)).addEvent (.dbBegin st.tx)) := by
            simp [runFiles, hm, hrf', htx']
          rw [ha, hb]
        | ok =>
          have htx' : env'.txBegin st.tx = DbResult.ok := by rw [h2, htx]
          cases hex : env.execBatch st.tx content with
          | err e =>
            have hex' : env'.execBatch st.tx content = DbResult.err e := by rw [h3, hex]
            have ha : runFiles env (name :: rest) st = (RunOutcome.errDb e,
                (((st.addEvent (.fsReadFile name)).addEvent (.dbBegin st.tx)).addEvent
                  (.dbExecBatch st.tx name content)).addEvent (.dbRollback st.tx)) := by
              simp [runFiles, hm, hrf, htx, hex]
            have hb : runFiles env' (name :: rest) st = (RunOutcome.errDb e,
                (((st.addEvent (.fsReadFile name)).addEvent (.dbBegin st.tx)).addEvent
                  (.dbExecBatch st.tx name content)).addEvent (.dbRollback st.tx)) := by
              simp [runFiles, hm, hrf', htx', hex']
            rw [ha, hb]
          | ok =>
            have hex' : env'.execBatch st.tx content = DbResult.ok := by rw [h3, hex]
            have ha : runFiles env (name :: rest) st =
                runFiles env rest (commitSt env st name content) := by
              simp [runFiles, hm, hrf, htx, hex]
            have hb : runFiles env' (name :: rest) st =
                runFiles env' rest (commitSt env' st name content) := by
              simp [runFiles, hm, hrf', htx', hex']
            have hc : commitSt env' st name content = commitSt env st name content := by
              simp [commitSt, h4, h5]
            rw [ha, hb, hc, ih]

/-- The state in which the loop starts once the directory is listed, the
control table is ensured and the ledger is loaded. -/
def loopSt (applied : List String) : St :=
  { events := [Event.dbCreateTable, Event.dbQueryLedger], applied := applied,
    newRows := [], committed := [], tx := 0 }

/-- Unfolding of `migrate_database` on the path that reaches the loop. -/
theorem migrate_database_run {env : Env} {names applied : List String}
    (hld : env.listDir = Except.ok names) (hct : env.createTable = DbResult.ok)
    (hql : env.queryLedger = Except.ok applied) :
    migrate_database env =
      runFiles env (List.insertionSort (pathLe env.dir) names) (loopSt applied) := by
  simp only [migrate_database, hld, hct, hql]
  rfl

/-- Every ledger row added comes from committed SQL: the INSERT is issued in
the same transaction, so a row is durable only when the COMMIT is. -/
theorem runFiles_newRows_sublist_committed (env : Env) :
    ∀ (l : List String) (st : St), List.Sublist st.newRows st.committed →
      List.Sublist (runFiles env l st).2.newRows (runFiles env l st).2.committed := by
  intro l
  induction l with
  | nil => intro st h; exact h
  | cons name rest ih =>
    intro st h
    by_cases hm : name ∈ st.applied
    · rw [show runFiles env (name :: rest) st = runFiles env rest st from by
        simp [runFiles, hm]]
      exact ih st h
    · cases hrf : env.readFile name with
      | error e =>
        rw [show runFiles env (name :: rest) st =
          (RunOutcome.errIo e, st.addEvent (.fsReadFile name)) from by
            simp [runFiles, hm, hrf]]
        simpa using h
      | ok content =>
        cases htx : env.txBegin st.tx with
        | err m =>
          rw [show runFiles env (name :: rest) st = (RunOutcome.panicked m,
              (st.addEvent (.fsReadFile name)).addEvent (.dbBegin st.tx)) from by
            simp [runFiles, hm, hrf, htx]]
          simpa using h
        | ok =>
          cases hex : env.execBatch st.tx content with
          | err e =>
            rw [show runFiles env (name :: rest) st = (RunOutcome.errDb e,
                (((st.addEvent (.fsReadFile name)).addEvent (.dbBegin st.tx)).addEvent
                  (.dbExecBatch st.tx name content)).addEvent (.dbRollback st.tx)) from by
              simp [runFiles, hm, hrf, htx, hex]]
            simpa using h
          | ok =>
            rw [show runFiles env (name :: rest) st =
              runFiles env rest (commitSt env st name content) from by
                simp [runFiles, hm, hrf, htx, hex]]
            refine ih (commitSt env st name content) ?_
            rw [commitSt_newRows, commitSt_committed]
            by_cases hcom : env.commitTx st.tx = DbResult.ok
            · by_cases hins : env.insertLedger st.tx = DbResult.ok
              · rw [if_pos ⟨hins, hcom⟩, if_pos hcom]
                exact h.append (List.Sublist.refl [name])
              · rw [if_neg (fun hh => hins hh.1), if_pos hcom]
                exact h.trans (List.sublist_append_left _ _)
            · rw [if_neg (fun hh => hcom hh.2), if_neg hcom]
              exact h

/-- When every ledger INSERT succeeds, the rows added to the ledger are
exactly the committed migrations. -/
theorem runFiles_newRows_eq_committed (env : Env)
    (hins : ∀ i, env.insertLedger i = DbResult.ok) :
    ∀ (l : List String) (st : St), st.newRows = st.committed →
      (runFiles env l st).2.newRows = (runFiles env l st).2.committed := by
  intro l
  induction l with
  | nil => intro st h; exact h
  | cons name rest ih =>
    intro st h
    by_cases hm : name ∈ st.applied
    · rw [show runFiles env (name :: rest) st = runFiles env rest st from by
        simp [runFiles, hm]]
      exact ih st h
    · cases hrf : env.readFile name with
      | error e =>
        rw [show runFiles env (name :: rest) st =
          (RunOutcome.errIo e, st.addEvent (.fsReadFile name)) from by
            simp [runFiles, hm, hrf]]
        simpa using h
      | ok content =>
        cases htx : env.txBegin st.tx with
        | err m =>
          rw [show runFiles env (name :: rest) st = (RunOutcome.panicked m,
              (st.addEvent (.fsReadFile name)).addEvent (.dbBegin st.tx)) from by
            simp [runFiles, hm, hrf, htx]]
          simpa using h
        | ok =>
          cases hex : env.execBatch st.tx content with
          | err e =>
            rw [show runFiles env (name :: rest) st = (RunOutcome.errDb e,
                (((st.addEvent (.fsReadFile name)).addEvent (.dbBegin st.tx)).addEvent
                  (.dbExecBatch st.tx name content)).addEvent (.dbRollback st.tx)) from by
              simp [runFiles, hm, hrf, htx, hex]]
            simpa using h
          | ok =>
            rw [show runFiles env (name :: rest) st =
              runFiles env rest (commitSt env st name content) from by
                simp [runFiles, hm, hrf, htx, hex]]
            refine ih (commitSt env st name content) ?_
            rw [commitSt_newRows, commitSt_committed, hins st.tx, h]
            simp

/-! ## Claims -/

/-- C9: if the migrations directory cannot be listed, `migrate_database`
returns an `IOError` with the underlying message and the final state is the
initial one: the trace is empty, so no statement or query was ever issued on
the connection and the database (ledger included) is unchanged. -/
theorem c9_dir_error_before_db (env : Env) (m : String)
    (h : env.listDir = Except.error m) :
    migrate_database env = (RunOutcome.errIo m, initSt) := by
  simp [migrate_database, h]

def c9Env : Env where
  dir := "migrations"
  listDir := .error "permission denied"
  readFile := fun _ => .ok ""
  createTable := .ok
  queryLedger := .ok []
  txBegin := fun _ => .ok
  execBatch := fun _ _ => .ok
  insertLedger := fun _ => .ok
  commitTx := fun _ => .ok
  rollbackTx := fun _ => .ok

/-- Witness for C9 at a concrete environment whose directory listing fails. -/
theorem c9_witness :
    migrate_database c9Env = (RunOutcome.errIo "permission denied", initSt) :=
  c9_dir_error_before_db c9Env "permission denied" rfl

/-- C10 counterexample: for `"a?authToken=&authToken=x"` the DSN has the
non-empty prefix `"a"` and its query string does contain an `authToken` key
with a non-empty value (the second pair), so the claim requires `Ok`; the
code hits the *first* `authToken` pair, whose value is empty, and returns an
error. -/
theorem c10_counterexample :
    dsnSpecAccepts "a?authToken=&authToken=x" = true ∧
      parse_dsn "a?authToken=&authToken=x" =
        Except.error "authToken in TRSO_DSN cannot be empty" :=
  ⟨rfl, rfl⟩

/-- Helper for C10: the loop over the query pairs returns `Ok` exactly when
the first `authToken` pair has a non-empty value, which becomes the token. -/
theorem findAuthToken_ok_iff (base : List Char) :
    ∀ (ps : List (List Char)) (b t : String),
      findAuthToken base ps = Except.ok (b, t) ↔
        ∃ v, firstAuthToken ps = some v ∧ v ≠ [] ∧
          b = String.mk base ∧ t = String.mk v := by
  intro ps
  induction ps with
  | nil => intro b t; simp [findAuthToken, firstAuthToken]
  | cons p ps ih =>
    intro b t
    by_cases hk : (splitFirst p '=').1 = String.toList "authToken"
    · by_cases hv : (splitFirst p '=').2.getD [] = []
      · simp [findAuthToken, firstAuthToken, hk, hv]
      · simp only [findAuthToken, firstAuthToken, if_pos hk, if_neg hv]
        constructor
        · intro h
          have h2 := (Except.ok.injEq _ _).mp h
          exact ⟨(splitFirst p '=').2.getD [], rfl, hv,
            (congrArg Prod.fst h2).symm, (congrArg Prod.snd h2).symm⟩
        · rintro ⟨v, hv2, -, hb, ht⟩
          obtain rfl : (splitFirst p '=').2.getD [] = v := (Option.some.injEq _ _).mp hv2
          rw [hb, ht]
    · simp only [findAuthToken, firstAuthToken, if_neg hk]
      exact ih b t

/-- C10 amended: `parse_dsn` returns `Ok (base, token)` exactly when the
prefix before the first question mark is non-empty, a query string is
present, and the **first** `authToken` pair of the query has a non-empty
value; then `base` is that prefix and `token` that value.  In every other
case — including a query whose first `authToken` pair is empty even though a
later one is not — it returns `Err`. -/
theorem c10_parse_dsn_iff (dsn b t : String) :
    parse_dsn dsn = Except.ok (b, t) ↔ dsnOkSpec dsn b t := by
  simp only [parse_dsn, dsnOkSpec, String.toList]
  by_cases hb : (splitFirst dsn.data '?').1 = []
  · simp [hb]
  · cases hq : (splitFirst dsn.data '?').2 with
    | none => simp [hb, hq]
    | some query =>
      simp only [hq, if_neg hb]
      rw [findAuthToken_ok_iff]
      constructor
      · rintro ⟨v, h1, h2, h3, h4⟩
        exact ⟨hb, query, v, rfl, h1, h2, h3, h4⟩
      · rintro ⟨-, q, v, hq2, h1, h2, h3, h4⟩
        obtain rfl : query = q := (Option.some.injEq _ _).mp hq2
        exact ⟨v, h1, h2, h3, h4⟩

/-- Witness for C10 at a concrete accepted DSN. -/
theorem c10_witness : parse_dsn "a?authToken=x" = Except.ok ("a", "x") :=
  (c10_parse_dsn_iff "a?authToken=x" "a" "x").mpr
    ⟨by decide, "authToken=x".toList, "x".toList, rfl, rfl, by decide, rfl, rfl⟩

def c1Env : Env where
  dir := "m"
  listDir := .ok ["001.sql", "002.sql"]
  readFile := fun n => .ok ("SQL " ++ n)
  createTable := .ok
  queryLedger := .ok []
  txBegin := fun _ => .ok
  execBatch := fun _ _ => .ok
  insertLedger := fun _ => .ok
  commitTx := fun _ => .err "commit failed"
  rollbackTx := fun _ => .ok

/-- C1 counterexample: the COMMIT of the first migration fails, yet the run
returns `Ok` — no `DatabaseError` is surfaced — and the loop goes on to
execute the second file.  The commit failure is silently ignored
(`let _ = transaction.commit().await`, src/main.rs line 207), refuting the
claim. -/
theorem c1_counterexample :
    c1Env.commitTx 0 = DbResult.err "commit failed" ∧
      (migrate_database c1Env).1 = RunOutcome.ok ∧
      Event.dbExecBatch 1 "002.sql" "SQL 002.sql" ∈ (migrate_database c1Env).2.events :=
  ⟨rfl, rfl, by decide⟩

/-- C1 amended: the results of the ledger INSERT and of the COMMIT are
discarded (`let _ = ...`, src/main.rs lines 201-207): the outcome
`migrate_database` returns and the operations it issues are identical
whatever those two results are, so a commit or insert failure never aborts
the run and is never reported to the caller.  (Only the durable ledger/SQL
state differs.) -/
theorem c1_commit_failure_ignored (env : Env) (f g : Nat → DbResult) :
    (migrate_database (withLedgerOutcomes env f g)).1 = (migrate_database env).1 ∧
      (migrate_database (withLedgerOutcomes env f g)).2.events =
        (migrate_database env).2.events := by
  cases hld : env.listDir with
  | error e => simp [migrate_database, hld]
  | ok names =>
    cases hct : env.createTable with
    | err e => simp [migrate_database, hld, hct]
    | ok =>
      cases hql : env.queryLedger with
      | error e => simp [migrate_database, hld, hct, hql]
      | ok applied =>
        rw [migrate_database_run hld hct hql,
          @migrate_database_run (withLedgerOutcomes env f g) names applied
            (by simp [hld]) (by simp [hct]) (by simp [hql]),
          withLedgerOutcomes_dir]
        exact runFiles_outcome_indep env f g
          (List.insertionSort (pathLe env.dir) names) (loopSt applied) (loopSt applied)
          rfl rfl rfl

def c2Env : Env where
  dir := "m"
  listDir := .ok ["m1"]
  readFile := fun _ => .ok "CREATE TABLE t(x);"
  createTable := .ok
  queryLedger := .ok []
  txBegin := fun _ => .ok
  execBatch := fun _ _ => .ok
  insertLedger := fun _ => .err "insert failed"
  commitTx := fun _ => .ok
  rollbackTx := fun _ => .ok

/-- C2 counterexample: the ledger INSERT for `"m1"` fails (its result is
discarded, src/main.rs lines 201-206) while the COMMIT succeeds: the
migration SQL is fully committed, yet no row for `"m1"` is added to the
migrations table, so after the run the claimed iff fails (committed but not
ledgered). -/
theorem c2_counterexample :
    (migrate_database c2Env).2.committed = ["m1"] ∧
      (migrate_database c2Env).2.newRows = [] ∧
      (migrate_database c2Env).1 = RunOutcome.ok :=
  ⟨rfl, rfl, rfl⟩

/-- C2 amended: the ledger INSERT is issued inside the same transaction as
the file's SQL, so every row added to the migrations table corresponds to
SQL committed by this run, in order (the rows are a sublist of the committed
migrations); and whenever no ledger INSERT fails, the correspondence is
exact — a row is added iff that file's SQL committed.  Because the INSERT's
result is discarded, the converse can fail when an INSERT fails (see the
counterexample). -/
theorem c2_ledger_rows_committed (env : Env) :
    List.Sublist (migrate_database env).2.newRows (migrate_database env).2.committed ∧
      ((∀ i, env.insertLedger i = DbResult.ok) →
        (migrate_database env).2.newRows = (migrate_database env).2.committed) := by
  cases hld : env.listDir with
  | error e => simp [migrate_database, hld, initSt]
  | ok names =>
    cases hct : env.createTable with
    | err e => simp [migrate_database, hld, hct, initSt, St.addEvent]
    | ok =>
      cases hql : env.queryLedger with
      | error e => simp [migrate_database, hld, hct, hql, initSt, St.addEvent]
      | ok applied =>
        rw [migrate_database_run hld hct hql]
        constructor
        · exact runFiles_newRows_sublist_committed env _ (loopSt applied)
            (List.Sublist.refl [])
        · intro hins
          exact runFiles_newRows_eq_committed env hins _ (loopSt applied) rfl

def c2EnvW : Env where
  dir := "m"
  listDir := .ok ["w1.sql"]
  readFile := fun _ => .ok "CREATE TABLE w(x);"
  createTable := .ok
  queryLedger := .ok []
  txBegin := fun _ => .ok
  execBatch := fun _ _ => .ok
  insertLedger := fun _ => .ok
  commitTx := fun _ => .ok
  rollbackTx := fun _ => .ok

/-- Witness for C2 (amended) at a concrete environment where every INSERT
succeeds. -/
theorem c2_witness :
    (migrate_database c2EnvW).2.newRows = (migrate_database c2EnvW).2.committed :=
  (c2_ledger_rows_committed c2EnvW).2 fun _ => rfl

def c7Env : Env where
  dir := "m"
  listDir := .ok ["a.sql"]
  readFile := fun _ => .ok "CREATE TABLE a(x);"
  createTable := .ok
  queryLedger := .ok []
  txBegin := fun _ => .ok
  execBatch := fun _ _ => .ok
  insertLedger := fun _ => .ok
  commitTx := fun _ => .ok
  rollbackTx := fun _ => .ok

/-- C7 counterexample: the migration `"a.sql"` is committed and its ledger
row inserted, yet the in-memory applied set is still empty afterwards: the
source never inserts into `in_database` inside the loop, refuting the claim
that the set is updated after each commit. -/
theorem c7_counterexample :
    (migrate_database c7Env).2.committed = ["a.sql"] ∧
      (migrate_database c7Env).2.newRows = ["a.sql"] ∧
      (migrate_database c7Env).2.applied = [] :=
  ⟨rfl, rfl, rfl⟩

/-- C7 amended: the in-memory applied set is never updated during the run:
at the end it is exactly the set loaded from the migrations table, no matter
what was committed.  (A later file with the same identifier in the same run
would therefore not be treated as already applied; such duplicates cannot
arise from a single flat directory listing.) -/
theorem c7_applied_set_never_updated (env : Env) (names applied : List String)
    (hld : env.listDir = Except.ok names) (hct : env.createTable = DbResult.ok)
    (hql : env.queryLedger = Except.ok applied) :
    (migrate_database env).2.applied = applied := by
  rw [migrate_database_run hld hct hql, runFiles_applied]
  rfl

def c7EnvW : Env where
  dir := "m"
  listDir := .ok ["a.sql"]
  readFile := fun _ => .ok "CREATE TABLE a(x);"
  createTable := .ok
  queryLedger := .ok ["z.sql"]
  txBegin := fun _ => .ok
  execBatch := fun _ _ => .ok
  insertLedger := fun _ => .ok
  commitTx := fun _ => .ok
  rollbackTx := fun _ => .ok

/-- Witness for C7 (amended) at a concrete environment. -/
theorem c7_witness : (migrate_database c7EnvW).2.applied = ["z.sql"] :=
  c7_applied_set_never_updated c7EnvW ["a.sql"] ["z.sql"] rfl rfl rfl

def c8Env : Env where
  dir := "m"
  listDir := .ok ["a.sql"]
  readFile := fun _ => .ok "CREATE TABLE a(x);"
  createTable := .ok
  queryLedger := .ok []
  txBegin := fun _ => .err "tx down"
  execBatch := fun _ _ => .ok
  insertLedger := fun _ => .ok
  commitTx := fun _ => .ok
  rollbackTx := fun _ => .ok

/-- C8 counterexample: beginning the transaction fails and the run ends in a
panic (`conn.transaction().await.unwrap()`, src/main.rs line 198) — a
distinct outcome from returning `Err(AppError::DatabaseError _)`, so the
failure is not surfaced to the caller as a returned `DatabaseError`. -/
theorem c8_counterexample :
    (migrate_database c8Env).1 = RunOutcome.panicked "tx down" := rfl

/-- C8 amended: at any point of the loop, when the pending file was read and
`conn.transaction()` fails, the run aborts by panicking with the underlying
message (the `Result` is unwrapped), rather than returning a
`DatabaseError`. -/
theorem c8_tx_begin_panics (env : Env) (name content m : String)
    (rest : List String) (st : St)
    (hm : name ∉ st.applied) (hrf : env.readFile name = Except.ok content)
    (htx : env.txBegin st.tx = DbResult.err m) :
    runFiles env (name :: rest) st = (RunOutcome.panicked m,
      (st.addEvent (.fsReadFile name)).addEvent (.dbBegin st.tx)) := by
  simp [runFiles, hm, hrf, htx]

/-- Witness for C8 (amended) at a concrete environment and loop state. -/
theorem c8_witness :
    runFiles c8Env ["a.sql"] (loopSt []) = (RunOutcome.panicked "tx down",
      ((loopSt []).addEvent (.fsReadFile "a.sql")).addEvent (.dbBegin (loopSt []).tx)) :=
  c8_tx_begin_panics c8Env "a.sql" "CREATE TABLE a(x);" "tx down" [] (loopSt [])
    (by simp [loopSt]) rfl rfl

/-- C3: at any point of the loop, if executing the pending file's SQL batch
fails with message `m`, the run issues the ROLLBACK (whose result is never
consulted: `env.rollbackTx` is unconstrained here and does not appear in the
conclusion) and returns `Err(AppError::DatabaseError m)` immediately: the
returned state extends the trace by exactly the read, begin, batch and
rollback of this file, so no file of `rest` — the files later in the sorted
order — is ever read or executed in this run. -/
theorem c3_exec_failure_aborts (env : Env) (name content m : String)
    (rest : List String) (st : St)
    (hm : name ∉ st.applied) (hrf : env.readFile name = Except.ok content)
    (htx : env.txBegin st.tx = DbResult.ok)
    (hex : env.execBatch st.tx content = DbResult.err m) :
    runFiles env (name :: rest) st = (RunOutcome.errDb m,
      (((st.addEvent (.fsReadFile name)).addEvent (.dbBegin st.tx)).addEvent
        (.dbExecBatch st.tx name content)).addEvent (.dbRollback st.tx)) := by
  simp [runFiles, hm, hrf, htx, hex]

def c3Env : Env where
  dir := "m"
  listDir := .ok ["a.sql", "b.sql"]
  readFile := fun _ => .ok "NOT SQL"
  createTable := .ok
  queryLedger := .ok []
  txBegin := fun _ => .ok
  execBatch := fun _ _ => .err "syntax error"
  insertLedger := fun _ => .ok
  commitTx := fun _ => .ok
  rollbackTx := fun _ => .err "rollback also failed"

/-- Witness for C3 at a concrete environment: two pending files, the first
fails to execute (and the rollback itself fails, without being escalated);
the second is never touched. -/
theorem c3_witness :
    runFiles c3Env ["a.sql", "b.sql"] (loopSt []) = (RunOutcome.errDb "syntax error",
      ((((loopSt []).addEvent (.fsReadFile "a.sql")).addEvent
        (.dbBegin (loopSt []).tx)).addEvent
        (.dbExecBatch (loopSt []).tx "a.sql" "NOT SQL")).addEvent
        (.dbRollback (loopSt []).tx)) :=
  c3_exec_failure_aborts c3Env "a.sql" "NOT SQL" "syntax error" ["b.sql"] (loopSt [])
    (by simp [loopSt]) rfl rfl rfl

def c5Env : Env where
  dir := "m"
  listDir := .ok ["b.sql", "a.sql"]
  readFile := fun n => .ok ("SQL " ++ n)
  createTable := .ok
  queryLedger := .ok []
  txBegin := fun _ => .ok
  execBatch := fun _ _ => .ok
  insertLedger := fun _ => .ok
  commitTx := fun _ => .ok
  rollbackTx := fun _ => .ok

/-- C5: the SQL batches are executed in lexicographic order of the full path
strings (`dir ++ "/" ++ name`), and the whole run is unchanged when the
directory listing returns the same entries in any other order: the sort, not
the listing order, determines the apply order. -/
theorem c5_lex_order (env : Env) (names names2 : List String)
    (hld : env.listDir = Except.ok names) (hperm : names2.Perm names) :
    List.Sorted (pathLe env.dir) (execsOf (migrate_database env).2.events) ∧
      migrate_database { env with listDir := Except.ok names2 } =
        migrate_database env := by
  have hsorted2 : List.insertionSort (pathLe env.dir) names2 =
      List.insertionSort (pathLe env.dir) names :=
    List.eq_of_perm_of_sorted
      ((List.perm_insertionSort _ names2).trans
        (hperm.trans (List.perm_insertionSort _ names).symm))
      (List.sorted_insertionSort _ names2) (List.sorted_insertionSort _ names)
  have hright : migrate_database { env with listDir := Except.ok names2 } =
      migrate_database env := by
    obtain ⟨e2, he2⟩ : ∃ e2 : Env, e2 = { env with listDir := Except.ok names2 } :=
      ⟨_, rfl⟩
    have h2ld : e2.listDir = Except.ok names2 := by rw [he2]
    have h2ct : e2.createTable = env.createTable := by rw [he2]
    have h2ql : e2.queryLedger = env.queryLedger := by rw [he2]
    have h2dir : e2.dir = env.dir := by rw [he2]
    have h2rf : e2.readFile = env.readFile := by rw [he2]
    have h2tx : e2.txBegin = env.txBegin := by rw [he2]
    have h2ex : e2.execBatch = env.execBatch := by rw [he2]
    have h2il : e2.insertLedger = env.insertLedger := by rw [he2]
    have h2cm : e2.commitTx = env.commitTx := by rw [he2]
    rw [← he2]
    cases hct : env.createTable with
    | err e => simp [migrate_database, hld, h2ld, hct, h2ct]
    | ok =>
      cases hql : env.queryLedger with
      | error e => simp [migrate_database, hld, h2ld, hct, hql, h2ct, h2ql]
      | ok applied =>
        rw [migrate_database_run h2ld (h2ct.trans hct) (h2ql.trans hql),
          migrate_database_run hld hct hql, h2dir, hsorted2]
        exact runFiles_env_indep env e2 h2rf h2tx h2ex h2il h2cm _ _
  refine ⟨?_, hright⟩
  cases hct : env.createTable with
  | err e => simp [migrate_database, hld, hct, initSt, St.addEvent, execsOf]
  | ok =>
    cases hql : env.queryLedger with
    | error e => simp [migrate_database, hld, hct, hql, initSt, St.addEvent, execsOf]
    | ok applied =>
      rw [migrate_database_run hld hct hql]
      obtain ⟨E, hE, _, hS⟩ := runFiles_events env
        (List.insertionSort (pathLe env.dir) names) (loopSt applied)
      rw [hE]
      have h0 : execsOf ((loopSt applied).events ++ E) = execsOf E := by
        simp [loopSt, execsOf]
      rw [h0]
      exact (List.sorted_insertionSort (pathLe env.dir) names).sublist hS

/-- Witness for C5 at a concrete environment whose listing is reversed
relative to the lexicographic path order. -/
theorem c5_witness :
    List.Sorted (pathLe "m") (execsOf (migrate_database c5Env).2.events) ∧
      migrate_database { c5Env with listDir := Except.ok ["a.sql", "b.sql"] } =
        migrate_database c5Env :=
  c5_lex_order c5Env ["b.sql", "a.sql"] ["a.sql", "b.sql"] rfl
    (List.Perm.swap "b.sql" "a.sql" [])

/-- Environment of a second run over the same unchanged directory and
filesystem: only the ledger query differs, now also returning the rows the
first run added. -/
def secondRunEnv (env : Env) (applied : List String) : Env :=
  { env with queryLedger := Except.ok (applied ++ (migrate_database env).2.newRows) }

@[simp] theorem secondRunEnv_listDir (env : Env) (applied : List String) :
    (secondRunEnv env applied).listDir = env.listDir := rfl

@[simp] theorem secondRunEnv_createTable (env : Env) (applied : List String) :
    (secondRunEnv env applied).createTable = env.createTable := rfl

@[simp] theorem secondRunEnv_dir (env : Env) (applied : List String) :
    (secondRunEnv env applied).dir = env.dir := rfl

theorem secondRunEnv_queryLedger (env : Env) (applied : List String) :
    (secondRunEnv env applied).queryLedger =
      Except.ok (applied ++ (migrate_database env).2.newRows) := rfl

/-- C4: (i) for every file name in the applied set loaded from the
migrations table, the run issues no per-file operation about it: no read of
its content, no batch execution, no ledger INSERT (every trace entry about a
file concerns a name outside the applied set); (ii) if the run returns `Ok`
and every issued INSERT and COMMIT succeeded, a second run over the same
unchanged directory — same listing, same file contents, the ledger now also
holding the first run's rows — returns `Ok`, adds no ledger row, and issues
no per-file operation at all: zero migration statements are executed on the
second run. -/
theorem c4_skip_and_idempotent (env : Env) (names applied : List String)
    (hld : env.listDir = Except.ok names) (hql : env.queryLedger = Except.ok applied) :
    (∀ name ∈ applied, ∀ e ∈ (migrate_database env).2.events,
      eventFileName e ≠ some name) ∧
      ((migrate_database env).1 = RunOutcome.ok →
        (∀ i, env.insertLedger i = DbResult.ok) →
        (∀ i, env.commitTx i = DbResult.ok) →
        (migrate_database (secondRunEnv env applied)).1 = RunOutcome.ok ∧
          (migrate_database (secondRunEnv env applied)).2.newRows = [] ∧
          ∀ e ∈ (migrate_database (secondRunEnv env applied)).2.events,
            eventFileName e = none) := by
  cases hct : env.createTable with
  | err e =>
    have h1 : migrate_database env = (RunOutcome.errDb e, initSt.addEvent .dbCreateTable) := by
      simp [migrate_database, hld, hct]
    constructor
    · intro name _ ev hev
      rw [h1] at hev
      simp only [addEvent_events, initSt, List.nil_append, List.mem_singleton] at hev
      subst hev
      simp [eventFileName]
    · intro hok
      rw [h1] at hok
      cases hok
  | ok =>
    have hrun1 : migrate_database env =
        runFiles env (List.insertionSort (pathLe env.dir) names) (loopSt applied) :=
      migrate_database_run hld hct hql
    constructor
    · intro name hname ev hev
      rw [hrun1] at hev
      obtain ⟨E, hE, hP, _⟩ := runFiles_events env
        (List.insertionSort (pathLe env.dir) names) (loopSt applied)
      rw [hE] at hev
      rcases List.mem_append.mp hev with h | h
      · simp only [loopSt, List.mem_cons, List.not_mem_nil, or_false] at h
        rcases h with rfl | rfl <;> simp [eventFileName]
      · intro hcontra
        obtain ⟨hnot, _⟩ := hP ev h name hcontra
        exact hnot (by simpa [loopSt] using hname)
    · intro hok hins hcom
      rw [hrun1] at hok
      have hcov := runFiles_ok_covered env hins hcom
        (List.insertionSort (pathLe env.dir) names) (loopSt applied) hok
      have h2 : migrate_database (secondRunEnv env applied) =
          runFiles (secondRunEnv env applied)
            (List.insertionSort (pathLe (secondRunEnv env applied).dir) names)
            (loopSt (applied ++ (migrate_database env).2.newRows)) :=
        migrate_database_run (by simp [hld]) (by simp [hct]) (secondRunEnv_queryLedger env applied)
      rw [secondRunEnv_dir] at h2
      have hindep : ∀ (l : List String) (st : St),
          runFiles (secondRunEnv env applied) l st = runFiles env l st :=
        runFiles_env_indep env (secondRunEnv env applied) rfl rfl rfl rfl rfl
      have hall : ∀ n ∈ List.insertionSort (pathLe env.dir) names,
          n ∈ (loopSt (applied ++ (migrate_database env).2.newRows)).applied := by
        intro n hn
        rcases hcov n hn with h | h
        · simp only [loopSt]
          exact List.mem_append.mpr (Or.inl h)
        · have hm2 : n ∈ (migrate_database env).2.newRows := by rw [hrun1]; exact h
          simp only [loopSt]
          exact List.mem_append.mpr (Or.inr hm2)
      have hfinal : runFiles env (List.insertionSort (pathLe env.dir) names)
            (loopSt (applied ++ (migrate_database env).2.newRows)) =
          (RunOutcome.ok, loopSt (applied ++ (migrate_database env).2.newRows)) :=
        runFiles_all_applied env _ _ hall
      rw [h2, hindep, hfinal]
      refine ⟨rfl, rfl, ?_⟩
      intro ev hev
      simp only [loopSt, List.mem_cons, List.not_mem_nil, or_false] at hev
      rcases hev with rfl | rfl <;> rfl

def c4Env : Env where
  dir := "m"
  listDir := .ok ["002.sql", "001.sql"]
  readFile := fun n => .ok ("SQL " ++ n)
  createTable := .ok
  queryLedger := .ok []
  txBegin := fun _ => .ok
  execBatch := fun _ _ => .ok
  insertLedger := fun _ => .ok
  commitTx := fun _ => .ok
  rollbackTx := fun _ => .ok

/-- Witness for C4 at a concrete environment: the second run over the same
directory succeeds and adds no ledger row. -/
theorem c4_witness :
    (migrate_database (secondRunEnv c4Env [])).1 = RunOutcome.ok ∧
      (migrate_database (secondRunEnv c4Env [])).2.newRows = [] := by
  have h := (c4_skip_and_idempotent c4Env ["002.sql", "001.sql"] [] rfl rfl).2 rfl
    (fun _ => rfl) (fun _ => rfl)
  exact ⟨h.1, h.2.1⟩

def c6Env : Env where
  dir := "m"
  listDir := .ok ["001.sql"]
  readFile := fun _ => .error "boom"
  createTable := .ok
  queryLedger := .ok []
  txBegin := fun _ => .ok
  execBatch := fun _ _ => .ok
  insertLedger := fun _ => .ok
  commitTx := fun _ => .ok
  rollbackTx := fun _ => .ok

def c6EnvDb : Env where
  dir := "m"
  listDir := .ok ["001.sql"]
  readFile := fun _ => .ok "NOT SQL"
  createTable := .ok
  queryLedger := .ok []
  txBegin := fun _ => .ok
  execBatch := fun _ _ => .err "dberr"
  insertLedger := fun _ => .ok
  commitTx := fun _ => .ok
  rollbackTx := fun _ => .ok

/-- C6 counterexample: reading `"001.sql"` fails with the OS error `"boom"`
and the returned error is `IOError "boom"`; executing it fails with the
driver error `"dberr"` and the returned error is `DatabaseError "dberr"`.
In both cases the identifier `"001.sql"` does not occur anywhere in the
returned error (the source only prints it), refuting the claim. -/
theorem c6_counterexample :
    ((migrate_database c6Env).1 = RunOutcome.errIo "boom" ∧
      ¬ List.IsInfix "001.sql".toList "boom".toList) ∧
      (migrate_database c6EnvDb).1 = RunOutcome.errDb "dberr" ∧
      ¬ List.IsInfix "001.sql".toList "dberr".toList := by
  refine ⟨⟨rfl, fun h => ?_⟩, rfl, fun h => ?_⟩
  · have h2 := h.length_le
    revert h2
    decide
  · have h2 := h.length_le
    revert h2
    decide

/-- C6 amended: a fatal error returned by `migrate_database` carries exactly
the underlying OS or driver error message and nothing else: an `IOError m`
means the listing or some file read failed with precisely `m`, and a
`DatabaseError m` means the table creation, the ledger query or some batch
execution failed with precisely `m`.  The offending identifier is only
printed to stdout, never part of the returned error. -/
theorem c6_error_is_underlying_only (env : Env) (m : String) :
    ((migrate_database env).1 = RunOutcome.errIo m →
        env.listDir = Except.error m ∨ ∃ n, env.readFile n = Except.error m) ∧
      ((migrate_database env).1 = RunOutcome.errDb m →
        env.createTable = DbResult.err m ∨ env.queryLedger = Except.error m ∨
          ∃ i c, env.execBatch i c = DbResult.err m) := by
  cases hld : env.listDir with
  | error e =>
    have h1 : (migrate_database env).1 = RunOutcome.errIo e := by
      simp [migrate_database, hld]
    constructor
    · intro h
      rw [h1] at h
      exact Or.inl (congrArg Except.error ((RunOutcome.errIo.injEq e m).mp h))
    · intro h
      rw [h1] at h
      cases h
  | ok names =>
    cases hct : env.createTable with
    | err e =>
      have h1 : (migrate_database env).1 = RunOutcome.errDb e := by
        simp [migrate_database, hld, hct]
      constructor
      · intro h
        rw [h1] at h
        cases h
      · intro h
        rw [h1] at h
        exact Or.inl (congrArg DbResult.err ((RunOutcome.errDb.injEq e m).mp h))
    | ok =>
      cases hql : env.queryLedger with
      | error e =>
        have h1 : (migrate_database env).1 = RunOutcome.errDb e := by
          simp [migrate_database, hld, hct, hql]
        constructor
        · intro h
          rw [h1] at h
          cases h
        · intro h
          rw [h1] at h
          exact Or.inr (Or.inl
            (congrArg Except.error ((RunOutcome.errDb.injEq e m).mp h)))
      | ok applied =>
        have hrun1 : migrate_database env =
            runFiles env (List.insertionSort (pathLe env.dir) names) (loopSt applied) :=
          migrate_database_run hld hct hql
        constructor
        · intro h
          rw [hrun1] at h
          exact Or.inr (runFiles_errIo env _ (loopSt applied) m h)
        · intro h
          rw [hrun1] at h
          exact Or.inr (Or.inr (runFiles_errDb env _ (loopSt applied) m h))

/-- Witness for C6 (amended): the returned `IOError "boom"` of the
counterexample environment is traced back to a file read failing with
exactly that message. -/
theorem c6_witness :
    c6Env.listDir = Except.error "boom" ∨
      ∃ n, c6Env.readFile n = Except.error "boom" :=
  (c6_error_is_underlying_only c6Env "boom").1 rfl

end Trso
